import Mathlib

/-
Verification of the template-literal region locator of
sync-email-templates.py (the Python function find_function_and_template).

Shallow embedding conventions:
- Python strings become List Char; Python string indices become Nat.
- The two regular expressions used by the code are embedded as explicit
  leftmost-match scanners built from prefix matchers (the patterns are
  simple enough that greedy maximal-munch matching coincides with
  Python's backtracking semantics for the character classes involved,
  because each quantified class is followed by a character it excludes).
- The backtick scanning while-loop becomes the structurally recursive
  function scanT over the suffix of the text starting at the scan
  position; it returns the offset of the terminating backtick, or none
  when the loop runs off the end of the text (the unterminated case).
- The three distinct error return sites of the Python function become
  the three constructors of LocateError.
-/

/-- ASCII part of the Python regex whitespace class (the class used by
    the patterns of the script; the scanned source is ASCII). -/
def pySpace (c : Char) : Bool :=
  c = ' ' || c = '\t' || c = '\n' || c = '\r' || c = '\x0b' || c = '\x0c'

/-- ASCII part of the Python regex word class. -/
def pyWord (c : Char) : Bool :=
  c.isAlphanum || c = '_'

/-- Match a literal character sequence as a prefix of s, returning the
    remainder of s after it. -/
def matchLit : List Char → List Char → Option (List Char)
  | [], s => some s
  | _ :: _, [] => none
  | l :: ls, c :: cs => if c = l then matchLit ls cs else none

/-- Greedy match of one or more characters of the class p, as in a
    regex plus quantifier followed by a character outside the class. -/
def matchPlus (p : Char → Bool) : List Char → Option (List Char)
  | [] => none
  | c :: cs => if p c then some (cs.dropWhile p) else none

/-- The function-header pattern of the script: the word function, then
    whitespace, the function name, optional whitespace, a parenthesized
    parameter list free of close parens, optional whitespace, and an
    opening brace.  Returns the remainder after the brace (so the end of
    a match is the Python func_match.end()). -/
def matchFuncHeader (fname : List Char) (s : List Char) : Option (List Char) :=
  (matchLit ("function".toList) s).bind (fun s1 =>
  (matchPlus pySpace s1).bind (fun s2 =>
  (matchLit fname s2).bind (fun s3 =>
  (matchLit ['('] (s3.dropWhile pySpace)).bind (fun s4 =>
  (matchLit [')'] (s4.dropWhile (fun c => !(c = ')')))).bind (fun s5 =>
  matchLit ['\x7b'] (s5.dropWhile pySpace))))))

/-- The next-function pattern of the script: a newline followed either by
    the word function, whitespace and a word, or by a doc-comment opener. -/
def matchNextFunc (s : List Char) : Option (List Char) :=
  (matchLit ['\n'] s).bind (fun s1 =>
    match (matchLit ("function".toList) s1).bind (fun s2 =>
            (matchPlus pySpace s2).bind (fun s3 => matchPlus pyWord s3)) with
    | some r => some r
    | none => matchLit ['/', '*', '*'] s1)

/-- KW? ws VAR ws = ws backtick, the part of the assignment pattern after
    the optional declaration keyword. -/
def matchAssignTail (hvar : List Char) (s : List Char) : Option (List Char) :=
  (matchLit hvar (s.dropWhile pySpace)).bind (fun s1 =>
  (matchLit ['='] (s1.dropWhile pySpace)).bind (fun s2 =>
  matchLit ['\x60'] (s2.dropWhile pySpace)))

/-- The assignment pattern of the script: an optional const, let or var
    keyword (tried in that order, as the regex alternation does), then
    whitespace, the variable name, an equals sign and an opening
    backtick. -/
def matchAssign (hvar : List Char) (s : List Char) : Option (List Char) :=
  match (matchLit ("const".toList) s).bind (matchAssignTail hvar) with
  | some r => some r
  | none =>
    match (matchLit ("let".toList) s).bind (matchAssignTail hvar) with
    | some r => some r
    | none =>
      match (matchLit ("var".toList) s).bind (matchAssignTail hvar) with
      | some r => some r
      | none => matchAssignTail hvar s

/-- The return-style pattern of the script: the word return, optional
    whitespace, and an opening backtick. -/
def matchReturn (s : List Char) : Option (List Char) :=
  (matchLit ("return".toList) s).bind (fun s1 =>
  matchLit ['\x60'] (s1.dropWhile pySpace))

/-- Leftmost search, as in Python re.search: try the matcher at every
    position from the left; on success return the start position and the
    end position of the match. -/
def reSearch (m : List Char → Option (List Char)) : List Char → Option (Nat × Nat)
  | [] =>
    match m [] with
    | some _ => some (0, 0)
    | none => none
  | c :: cs =>
    match m (c :: cs) with
    | some r => some (0, (c :: cs).length - r.length)
    | none => (reSearch m cs).map (fun p => (p.1 + 1, p.2 + 1))

/-- The backtick scanning loop of find_function_and_template, over the
    suffix of the text that starts just after the opening backtick.
    Arguments: the in-expression flag, the brace nesting depth, and the
    remaining text.  Returns the offset of the terminating backtick
    relative to the start of the suffix, or none when the position runs
    past the end of the text (the unterminated case).  The escaped pair,
    the dollar-brace opener, the terminating backtick, and the brace
    bookkeeping follow the Python loop body line by line; the singleton
    arm repeats the cases that are reachable when only one character
    remains (the escape and the interpolation opener both require a
    following character, exactly as the Python bounds checks do). -/
def scanT : Bool → Int → List Char → Option Nat
  | _, _, [] => none
  | inExpr, d, [c] =>
    if c = '\x60' ∧ inExpr = false then some 0
    else if inExpr = true ∧ c = '\x7b' then (scanT inExpr (d + 1) []).map (fun k => k + 1)
    else if inExpr = true ∧ c = '\x7d' then
      (if d - 1 = 0 then (scanT false (d - 1) []).map (fun k => k + 1)
       else (scanT inExpr (d - 1) []).map (fun k => k + 1))
    else (scanT inExpr d []).map (fun k => k + 1)
  | inExpr, d, c :: c2 :: rest =>
    if c = '\\' then (scanT inExpr d rest).map (fun k => k + 2)
    else if c = '\x60' ∧ inExpr = false then some 0
    else if c = '$' ∧ c2 = '\x7b' then (scanT true 1 rest).map (fun k => k + 2)
    else if inExpr = true ∧ c = '\x7b' then (scanT inExpr (d + 1) (c2 :: rest)).map (fun k => k + 1)
    else if inExpr = true ∧ c = '\x7d' then
      (if d - 1 = 0 then (scanT false (d - 1) (c2 :: rest)).map (fun k => k + 1)
       else (scanT inExpr (d - 1) (c2 :: rest)).map (fun k => k + 1))
    else (scanT inExpr d (c2 :: rest)).map (fun k => k + 1)

/-- The scanning loop again, with an explicit bound on the number of
    loop iterations; none means the bound was exhausted.  Used to state
    that the loop terminates within length-many iterations because the
    position strictly increases at every iteration. -/
def scanFuel : Nat → Bool → Int → List Char → Option (Option Nat)
  | _, _, _, [] => some none
  | 0, _, _, _ :: _ => none
  | fuel + 1, inExpr, d, [c] =>
    if c = '\x60' ∧ inExpr = false then some (some 0)
    else if inExpr = true ∧ c = '\x7b' then
      (scanFuel fuel inExpr (d + 1) []).map (fun o => o.map (fun k => k + 1))
    else if inExpr = true ∧ c = '\x7d' then
      (if d - 1 = 0 then (scanFuel fuel false (d - 1) []).map (fun o => o.map (fun k => k + 1))
       else (scanFuel fuel inExpr (d - 1) []).map (fun o => o.map (fun k => k + 1)))
    else (scanFuel fuel inExpr d []).map (fun o => o.map (fun k => k + 1))
  | fuel + 1, inExpr, d, c :: c2 :: rest =>
    if c = '\\' then (scanFuel fuel inExpr d rest).map (fun o => o.map (fun k => k + 2))
    else if c = '\x60' ∧ inExpr = false then some (some 0)
    else if c = '$' ∧ c2 = '\x7b' then
      (scanFuel fuel true 1 rest).map (fun o => o.map (fun k => k + 2))
    else if inExpr = true ∧ c = '\x7b' then
      (scanFuel fuel inExpr (d + 1) (c2 :: rest)).map (fun o => o.map (fun k => k + 1))
    else if inExpr = true ∧ c = '\x7d' then
      (if d - 1 = 0 then
        (scanFuel fuel false (d - 1) (c2 :: rest)).map (fun o => o.map (fun k => k + 1))
       else (scanFuel fuel inExpr (d - 1) (c2 :: rest)).map (fun o => o.map (fun k => k + 1)))
    else (scanFuel fuel inExpr d (c2 :: rest)).map (fun o => o.map (fun k => k + 1))

/-- The three distinct failure reasons of find_function_and_template,
    one per early-return site of the Python function (there the reasons
    are three distinct message strings). -/
inductive LocateError where
  | functionNotFound
  | assignmentNotFound
  | unterminatedLiteral
deriving DecidableEq

/-- func_end of the script: the start of the next function declaration
    after funcStart, or the length of the text when none follows. -/
def funcEndOf (code : List Char) (funcStart : Nat) : Nat :=
  match reSearch matchNextFunc (code.drop funcStart) with
  | some p => funcStart + p.1
  | none => code.length

/-- func_body of the script: the window of the text from the end of the
    matched header to the start of the next function declaration. -/
def funcBodyOf (code : List Char) (funcStart : Nat) : List Char :=
  (code.drop funcStart).take (funcEndOf code funcStart - funcStart)

/-- The assignment-point search of the script: return-style when the
    variable name is the word return, assignment-style otherwise. -/
def assignSearch (hvar : List Char) (body : List Char) : Option (Nat × Nat) :=
  if hvar = ("return".toList) then reSearch matchReturn body
  else reSearch (matchAssign hvar) body

/-- The first half of find_function_and_template: locate the function,
    bound the window, locate the assignment point, and return the
    position just after the opening backtick (template_start). -/
def templateStartOf (code fname hvar : List Char) : Except LocateError Nat :=
  match reSearch (matchFuncHeader fname) code with
  | none => Except.error LocateError.functionNotFound
  | some fm =>
    match assignSearch hvar (funcBodyOf code fm.2) with
    | none => Except.error LocateError.assignmentNotFound
    | some a => Except.ok (fm.2 + a.2)

/-- find_function_and_template: the locator.  On success the pair is
    (template_start, template_end): the span of the literal content,
    with the terminating backtick at position template_end. -/
def find_function_and_template (code fname hvar : List Char) :
    Except LocateError (Nat × Nat) :=
  match templateStartOf code fname hvar with
  | Except.error e => Except.error e
  | Except.ok ts =>
    match scanT false 0 (code.drop ts) with
    | some k => Except.ok (ts, ts + k)
    | none => Except.error LocateError.unterminatedLiteral

/-- Python slicing code[st:en] for 0 <= st <= en <= length. -/
def pySlice (code : List Char) (st en : Nat) : List Char :=
  (code.drop st).take (en - st)

/-- Characters that the scanning loop passes over without changing its
    state while outside an interpolation: anything that is not a
    backslash, a backtick or a dollar sign. -/
def scanPlain (c : Char) : Bool :=
  !(c = '\\') && !(c = '\x60') && !(c = '$')

/-- Character of a text at a position (Python code[i] where in range). -/
def getC : List Char → Nat → Option Char
  | [], _ => none
  | c :: _, 0 => some c
  | _ :: cs, n + 1 => getC cs n

/-- C1, first concrete scenario: assignment-style template literal with
    one interpolation. -/
def ex1 : List Char :=
  ("function f(x) \x7b\n  const body = \x60Hello $\x7bname\x7d!\x60;\n\x7d").toList

/-- C1, second concrete scenario: return-style literal whose
    interpolation holds a brace-delimited object expression. -/
def ex2 : List Char :=
  ("function g(x) \x7b\n  return \x60Hi $\x7b \x7bx:1\x7d.x \x7d\x60;\n\x7d").toList

/-- C2 concrete scenario: interpolation with a braced sub-expression. -/
def exInterp : List Char :=
  ("function f(x) \x7b\n  const body = \x60A$\x7b \x7ba:1\x7d \x7dB\x60;\n\x7d").toList

/-- C3 concrete scenario: an escaped backtick inside the literal. -/
def exEsc : List Char :=
  ("function f(x) \x7b\n  const body = \x60a\\\x60b\x60;\n\x7d").toList

/-- C4 counterexample input: the literal of function a has no closing
    backtick before the next function boundary, but a backtick occurs
    later, inside function b. -/
def exCross : List Char :=
  ("function a() \x7b\n  const v = \x60oops\n\x7d\nfunction b() \x7b\n  const w = \x60x\x60;\n\x7d").toList

/-- C4 end-of-text scenario: no closing backtick anywhere. -/
def exUnterm : List Char :=
  ("function a() \x7b\n  const v = \x60oops\n\x7d").toList

/-- C5 counterexample input: the interpolation holds an opening brace
    inside a quoted string. -/
def exQuoteOpen : List Char :=
  ("function h() \x7b\n  const v = \x60A$\x7b \"\x7b\" \x7dB\x60;\n\x7d").toList

/-- C5 amended-claim input: the interpolation holds a closing brace
    inside a quoted string. -/
def exQuoteClose : List Char :=
  ("function h() \x7b\n  const v = \x60A$\x7b \"\x7d\" \x7dB\x60;\n\x7d").toList

/-- C6 input: a function that exists but has no matching assignment. -/
def exNoAssign : List Char :=
  ("function f() \x7b\n  const other = \x60T\x60;\n\x7d").toList

/-- C7 input: two functions assigning a literal to the same variable. -/
def exTwoFunc : List Char :=
  ("function a() \x7b\n  const v = \x60TEXTA\x60;\n\x7d\nfunction b() \x7b\n  const v = \x60TEXTB\x60;\n\x7d").toList

/-- C10 input: the only assignment is to a longer variable name that has
    the searched name as a suffix. -/
def exSuffix : List Char :=
  ("function g() \x7b\n  const xhtmlBody = \x60TEXT\x60;\n\x7d").toList

/-- A position in the middle of a text, one step helper. -/
theorem getC_append_cons : ∀ (a : List Char) (c : Char) (b : List Char),
    getC (a ++ c :: b) a.length = some c
  | [], _, _ => rfl
  | _ :: a, c, b => getC_append_cons a c b

/-- getC only answers at positions inside the text. -/
theorem getC_lt : ∀ (l : List Char) (i : Nat) (c : Char),
    getC l i = some c → i < l.length
  | [], i, c => by intro h; simp [getC] at h
  | x :: l, 0, c => by intro _; simp
  | x :: l, i + 1, c => by
    intro h
    have := getC_lt l i c h
    simp only [List.length_cons]
    omega

/-- getC after drop reads the original text at a shifted position. -/
theorem getC_drop : ∀ (n : Nat) (l : List Char) (i : Nat),
    getC (l.drop n) i = getC l (n + i)
  | 0, l, i => by simp [List.drop]
  | n + 1, [], i => by simp [List.drop, getC]
  | n + 1, c :: l, i => by
    simp only [List.drop]
    rw [getC_drop n l i]
    have hn : n + 1 + i = (n + i) + 1 := by omega
    rw [hn]
    rfl

/-- getC inside a take prefix reads the original text. -/
theorem getC_take : ∀ (n : Nat) (l : List Char) (i : Nat) (c : Char),
    getC (l.take n) i = some c → getC l i = some c
  | 0, l, i, c => by intro h; simp [List.take, getC] at h
  | n + 1, [], i, c => by intro h; simp [List.take, getC] at h
  | n + 1, x :: l, 0, c => by intro h; exact h
  | n + 1, x :: l, i + 1, c => by
    intro h
    exact getC_take n l i c h

/-- The scanning loop only ever stops on a backtick: a successful scan
    returns the position of a backtick. -/
theorem scanT_get : ∀ (s : List Char) (i : Bool) (d : Int) (k : Nat),
    scanT i d s = some k → getC s k = some '\x60'
  | [], i, d, k => by intro h; simp [scanT] at h
  | [c], i, d, k => by
    intro h
    simp only [scanT] at h
    split_ifs at h with h1 h2 h3
    · cases h
      rw [h1.1]
      rfl
    · simp [scanT] at h
    · simp [scanT] at h
    · simp [scanT] at h
    · simp [scanT] at h
  | c :: c2 :: rest, i, d, k => by
    intro h
    simp only [scanT] at h
    split_ifs at h with h1 h2 h3 h4 h5 h6
    · obtain ⟨k', hk', hke⟩ := Option.map_eq_some'.mp h
      rw [← hke]
      exact scanT_get rest i d k' hk'
    · cases h
      rw [h2.1]
      rfl
    · obtain ⟨k', hk', hke⟩ := Option.map_eq_some'.mp h
      rw [← hke]
      exact scanT_get rest true 1 k' hk'
    · obtain ⟨k', hk', hke⟩ := Option.map_eq_some'.mp h
      rw [← hke]
      exact scanT_get (c2 :: rest) i (d + 1) k' hk'
    · obtain ⟨k', hk', hke⟩ := Option.map_eq_some'.mp h
      rw [← hke]
      exact scanT_get (c2 :: rest) false (d - 1) k' hk'
    · obtain ⟨k', hk', hke⟩ := Option.map_eq_some'.mp h
      rw [← hke]
      exact scanT_get (c2 :: rest) i (d - 1) k' hk'
    · obtain ⟨k', hk', hke⟩ := Option.map_eq_some'.mp h
      rw [← hke]
      exact scanT_get (c2 :: rest) i d k' hk'

/-- A character that triggers none of the delimiter cases is passed over
    with the scanning state unchanged. -/
theorem scanT_advance (i : Bool) (d : Int) (c : Char) (rest : List Char)
    (hbs : ¬c = '\\') (hdl : ¬c = '$') (hbt : ¬(c = '\x60' ∧ i = false))
    (hbr : i = true → ¬c = '\x7b' ∧ ¬c = '\x7d') :
    scanT i d (c :: rest) = (scanT i d rest).map (fun k => k + 1) := by
  cases rest with
  | nil =>
    simp only [scanT]
    split_ifs <;> rfl
  | cons c2 rest' =>
    simp only [scanT]
    split_ifs with h1 h2 h3 h4
    · exact absurd h1.1 hdl
    · exact absurd h2.2 (hbr h2.1).1
    · exact absurd h3.2 (hbr h3.1).2
    · exact absurd h3.2 (hbr h3.1).2
    · rfl

/-- Scanning outside an interpolation over characters that are not
    backslashes, backticks or dollar signs stops exactly at the next
    backtick. -/
theorem scanT_plain : ∀ (TEXT : List Char) (d : Int) (r : List Char),
    (∀ c ∈ TEXT, scanPlain c = true) →
    scanT false d (TEXT ++ '\x60' :: r) = some TEXT.length
  | [], d, r => by
    intro _
    cases r with
    | nil => rfl
    | cons c2 r' => rfl
  | t :: TEXT', d, r => by
    intro h
    have hp := h t (by simp)
    simp only [scanPlain, Bool.and_eq_true, Bool.not_eq_true', decide_eq_false_iff_not] at hp
    rw [List.cons_append]
    rw [scanT_advance false d t (TEXT' ++ '\x60' :: r) hp.1.1 hp.2
        (fun hc => hp.1.2 hc.1)
        (fun hc => absurd hc (by simp))]
    rw [scanT_plain TEXT' d r (fun c hc => h c (by simp [hc]))]
    rfl

/-- A scan that stops immediately stops on a backtick outside an
    interpolation. -/
theorem scanT_some_zero (s : List Char) (i : Bool) (d : Int)
    (h : scanT i d s = some 0) : (∃ rest, s = '\x60' :: rest) ∧ i = false := by
  match s with
  | [] => simp [scanT] at h
  | [c] =>
    simp only [scanT] at h
    split_ifs at h with h1 h2 h3
    · exact ⟨⟨[], by rw [h1.1]⟩, h1.2⟩
    · simp [scanT] at h
    · simp [scanT] at h
    · simp [scanT] at h
    · simp [scanT] at h
  | c :: c2 :: rest =>
    simp only [scanT] at h
    split_ifs at h with h1 h2 h3 h4 h5 h6
    · obtain ⟨k', _, hke⟩ := Option.map_eq_some'.mp h
      omega
    · exact ⟨⟨c2 :: rest, by rw [h2.1]⟩, h2.2⟩
    · obtain ⟨k', _, hke⟩ := Option.map_eq_some'.mp h
      omega
    · obtain ⟨k', _, hke⟩ := Option.map_eq_some'.mp h
      omega
    · obtain ⟨k', _, hke⟩ := Option.map_eq_some'.mp h
      omega
    · obtain ⟨k', _, hke⟩ := Option.map_eq_some'.mp h
      omega
    · obtain ⟨k', _, hke⟩ := Option.map_eq_some'.mp h
      omega

/-- A literal match consumes exactly the literal. -/
theorem matchLit_eq : ∀ (l s r : List Char), matchLit l s = some r → s = l ++ r
  | [], s, r => by
    intro h
    simp only [matchLit, Option.some_inj] at h
    rw [h]
    rfl
  | _ :: _, [], r => by intro h; simp [matchLit] at h
  | l :: ls, c :: cs, r => by
    intro h
    simp only [matchLit] at h
    split_ifs at h with hc
    rw [hc, matchLit_eq ls cs r h]
    rfl

/-- Transitivity of the is-a-suffix-of relation, in explicit form. -/
theorem ext_trans (x y z : List Char) (h1 : ∃ t, x = t ++ y)
    (h2 : ∃ t, y = t ++ z) : ∃ t, x = t ++ z := by
  obtain ⟨a, ha⟩ := h1
  obtain ⟨b, hb⟩ := h2
  exact ⟨a ++ b, by rw [ha, hb, List.append_assoc]⟩

/-- dropWhile yields a suffix. -/
theorem ext_dropWhile (p : Char → Bool) (l : List Char) :
    ∃ t, l = t ++ l.dropWhile p :=
  ⟨l.takeWhile p, (List.takeWhile_append_dropWhile p l).symm⟩

/-- matchPlus consumes a prefix of its input. -/
theorem matchPlus_consumes (p : Char → Bool) (s r : List Char)
    (h : matchPlus p s = some r) : ∃ t, s = t ++ r := by
  cases s with
  | nil => simp [matchPlus] at h
  | cons a as =>
    simp only [matchPlus] at h
    split_ifs at h with ha
    · cases h
      exact ⟨a :: as.takeWhile p,
        by rw [List.cons_append, List.takeWhile_append_dropWhile]⟩

/-- The assignment-tail matcher consumes a chunk that ends with the
    opening backtick. -/
theorem matchAssignTail_ends (hvar s r : List Char)
    (h : matchAssignTail hvar s = some r) : ∃ t, s = t ++ '\x60' :: r := by
  unfold matchAssignTail at h
  cases h1 : matchLit hvar (s.dropWhile pySpace) with
  | none => rw [h1] at h; exact absurd h (by simp)
  | some s1 =>
    rw [h1] at h
    simp only [Option.some_bind] at h
    cases h2 : matchLit ['='] (s1.dropWhile pySpace) with
    | none => rw [h2] at h; exact absurd h (by simp)
    | some s2 =>
      rw [h2] at h
      simp only [Option.some_bind] at h
      refine ext_trans _ _ _ (ext_dropWhile pySpace s) ?_
      refine ext_trans _ _ _ ⟨hvar, matchLit_eq hvar _ s1 h1⟩ ?_
      refine ext_trans _ _ _ (ext_dropWhile pySpace s1) ?_
      refine ext_trans _ _ _ ⟨['='], matchLit_eq ['='] _ s2 h2⟩ ?_
      refine ext_trans _ _ _ (ext_dropWhile pySpace s2) ?_
      exact ⟨[], by simpa using matchLit_eq ['\x60'] _ r h⟩

/-- The assignment matcher consumes a chunk that ends with the opening
    backtick. -/
theorem matchAssign_ends (hvar s r : List Char)
    (h : matchAssign hvar s = some r) : ∃ t, s = t ++ '\x60' :: r := by
  unfold matchAssign at h
  cases hk1 : (matchLit ("const".toList) s).bind (matchAssignTail hvar) with
  | some r1 =>
    rw [hk1] at h
    cases h
    cases hl1 : matchLit ("const".toList) s with
    | none => rw [hl1] at hk1; exact absurd hk1 (by simp)
    | some s1 =>
      rw [hl1] at hk1
      simp only [Option.some_bind] at hk1
      refine ext_trans _ _ _ ⟨"const".toList, matchLit_eq _ s s1 hl1⟩ ?_
      exact matchAssignTail_ends hvar s1 r hk1
  | none =>
    rw [hk1] at h
    cases hk2 : (matchLit ("let".toList) s).bind (matchAssignTail hvar) with
    | some r2 =>
      rw [hk2] at h
      cases h
      cases hl2 : matchLit ("let".toList) s with
      | none => rw [hl2] at hk2; exact absurd hk2 (by simp)
      | some s2 =>
        rw [hl2] at hk2
        simp only [Option.some_bind] at hk2
        refine ext_trans _ _ _ ⟨"let".toList, matchLit_eq _ s s2 hl2⟩ ?_
        exact matchAssignTail_ends hvar s2 r hk2
    | none =>
      rw [hk2] at h
      cases hk3 : (matchLit ("var".toList) s).bind (matchAssignTail hvar) with
      | some r3 =>
        rw [hk3] at h
        cases h
        cases hl3 : matchLit ("var".toList) s with
        | none => rw [hl3] at hk3; exact absurd hk3 (by simp)
        | some s3 =>
          rw [hl3] at hk3
          simp only [Option.some_bind] at hk3
          refine ext_trans _ _ _ ⟨"var".toList, matchLit_eq _ s s3 hl3⟩ ?_
          exact matchAssignTail_ends hvar s3 r hk3
      | none =>
        rw [hk3] at h
        exact matchAssignTail_ends hvar s r h

/-- The return-style matcher consumes a chunk that ends with the opening
    backtick. -/
theorem matchReturn_ends (s r : List Char)
    (h : matchReturn s = some r) : ∃ t, s = t ++ '\x60' :: r := by
  unfold matchReturn at h
  cases h1 : matchLit ("return".toList) s with
  | none => rw [h1] at h; exact absurd h (by simp)
  | some s1 =>
    rw [h1] at h
    simp only [Option.some_bind] at h
    refine ext_trans _ _ _ ⟨"return".toList, matchLit_eq _ s s1 h1⟩ ?_
    refine ext_trans _ _ _ (ext_dropWhile pySpace s1) ?_
    exact ⟨[], by simpa using matchLit_eq ['\x60'] _ r h⟩

/-- The function-header matcher consumes a prefix of its input. -/
theorem matchFuncHeader_consumes (fname s r : List Char)
    (h : matchFuncHeader fname s = some r) : ∃ t, s = t ++ r := by
  unfold matchFuncHeader at h
  cases h1 : matchLit ("function".toList) s with
  | none => rw [h1] at h; exact absurd h (by simp)
  | some s1 =>
    rw [h1] at h
    simp only [Option.some_bind] at h
    cases h2 : matchPlus pySpace s1 with
    | none => rw [h2] at h; exact absurd h (by simp)
    | some s2 =>
      rw [h2] at h
      simp only [Option.some_bind] at h
      cases h3 : matchLit fname s2 with
      | none => rw [h3] at h; exact absurd h (by simp)
      | some s3 =>
        rw [h3] at h
        simp only [Option.some_bind] at h
        cases h4 : matchLit ['('] (s3.dropWhile pySpace) with
        | none => rw [h4] at h; exact absurd h (by simp)
        | some s4 =>
          rw [h4] at h
          simp only [Option.some_bind] at h
          cases h5 : matchLit [')'] (s4.dropWhile (fun c => !(c = ')'))) with
          | none => rw [h5] at h; exact absurd h (by simp)
          | some s5 =>
            rw [h5] at h
            simp only [Option.some_bind] at h
            refine ext_trans _ _ _ ⟨"function".toList, matchLit_eq _ s s1 h1⟩ ?_
            refine ext_trans _ _ _ (matchPlus_consumes pySpace s1 s2 h2) ?_
            refine ext_trans _ _ _ ⟨fname, matchLit_eq fname s2 s3 h3⟩ ?_
            refine ext_trans _ _ _ (ext_dropWhile pySpace s3) ?_
            refine ext_trans _ _ _ ⟨['('], matchLit_eq ['('] _ s4 h4⟩ ?_
            refine ext_trans _ _ _ (ext_dropWhile (fun c => !(c = ')')) s4) ?_
            refine ext_trans _ _ _ ⟨[')'], matchLit_eq [')'] _ s5 h5⟩ ?_
            refine ext_trans _ _ _ (ext_dropWhile pySpace s5) ?_
            exact ⟨['\x7b'], matchLit_eq ['\x7b'] _ r h⟩

/-- When every match of m ends with a backtick just before the
    remainder, a successful search pinpoints a backtick at the position
    just before the end of the match. -/
theorem reSearch_ends (m : List Char → Option (List Char))
    (hm : ∀ s r, m s = some r → ∃ t, s = t ++ '\x60' :: r) :
    ∀ (s : List Char) (a b : Nat), reSearch m s = some (a, b) →
    ∃ p q, s = p ++ '\x60' :: q ∧ p.length + 1 = b
  | [], a, b => by
    intro h
    simp only [reSearch] at h
    cases h1 : m [] with
    | none => rw [h1] at h; exact absurd h (by simp)
    | some r =>
      rw [h1] at h
      obtain ⟨t, ht⟩ := hm [] r h1
      have hl := congrArg List.length ht
      simp only [List.length_nil, List.length_append, List.length_cons] at hl
      omega
  | c :: cs, a, b => by
    intro h
    simp only [reSearch] at h
    cases h1 : m (c :: cs) with
    | some r =>
      rw [h1] at h
      simp only [Option.some_inj, Prod.mk.injEq, List.length_cons] at h
      obtain ⟨t, ht⟩ := hm _ r h1
      refine ⟨t, r, ht, ?_⟩
      have hl := congrArg List.length ht
      simp only [List.length_cons, List.length_append] at hl
      omega
    | none =>
      rw [h1] at h
      cases h2 : reSearch m cs with
      | none => rw [h2] at h; exact absurd h (by simp)
      | some p =>
        rw [h2] at h
        simp only [Option.map_some', Option.some_inj, Prod.mk.injEq] at h
        obtain ⟨q1, q2, hq, hb⟩ := reSearch_ends m hm cs p.1 p.2 (by rw [h2])
        refine ⟨c :: q1, q2, by rw [List.cons_append, ← hq], ?_⟩
        simp only [List.length_cons]
        omega

/-- The end position of a successful search never exceeds the length of
    the searched text. -/
theorem reSearch_bound (m : List Char → Option (List Char)) :
    ∀ (s : List Char) (a b : Nat), reSearch m s = some (a, b) → b ≤ s.length
  | [], a, b => by
    intro h
    simp only [reSearch] at h
    cases h1 : m [] with
    | none => rw [h1] at h; exact absurd h (by simp)
    | some r =>
      rw [h1] at h
      simp only [Option.some_inj, Prod.mk.injEq] at h
      omega
  | c :: cs, a, b => by
    intro h
    simp only [reSearch] at h
    cases h1 : m (c :: cs) with
    | some r =>
      rw [h1] at h
      simp only [Option.some_inj, Prod.mk.injEq, List.length_cons] at h
      simp only [List.length_cons]
      omega
    | none =>
      rw [h1] at h
      cases h2 : reSearch m cs with
      | none => rw [h2] at h; exact absurd h (by simp)
      | some p =>
        rw [h2] at h
        simp only [Option.map_some', Option.some_inj, Prod.mk.injEq] at h
        have := reSearch_bound m cs p.1 p.2 (by rw [h2])
        simp only [List.length_cons]
        omega

/-- C2: while the scanner is inside an interpolation a bare backtick
    never terminates the literal (it is passed over with the state
    unchanged); a scan terminates at a backtick only when the
    in-expression flag is off; and the concrete literal whose
    interpolation holds the braced sub-expression a:1 resolves to its
    full span. -/
theorem claim_C2 :
    (∀ (d : Int) (rest : List Char),
        scanT true d ('\x60' :: rest) = (scanT true d rest).map (fun k => k + 1)) ∧
    (∀ (s : List Char) (i : Bool) (d : Int), scanT i d s = some 0 →
        (∃ rest, s = '\x60' :: rest) ∧ i = false) ∧
    (find_function_and_template exInterp ("f".toList) ("body".toList) =
        Except.ok (32, 44) ∧
      pySlice exInterp 32 44 = ("A$\x7b \x7ba:1\x7d \x7dB").toList) := by
  refine ⟨?_, ?_, rfl, rfl⟩
  · intro d rest
    exact scanT_advance true d '\x60' rest (by decide) (by decide) (by simp)
      (fun _ => by decide)
  · intro s i d h
    exact scanT_some_zero s i d h

/-- C2 witness: a scan that stops immediately does so on a backtick with
    the in-expression flag off. -/
theorem claim_C2_witness :
    (∃ rest, ['\x60'] = ('\x60' : Char) :: rest) ∧ false = false :=
  claim_C2.2.1 ['\x60'] false 0 rfl

/-- C3: a backslash consumes the following character literally, for any
    following character, advancing two positions with the scanner state
    unchanged; and a literal containing an escaped backtick resolves to
    its full span, with the escaped backtick inside the content. -/
theorem claim_C3 :
    (∀ (i : Bool) (d : Int) (c : Char) (rest : List Char),
        scanT i d ('\\' :: c :: rest) = (scanT i d rest).map (fun k => k + 2)) ∧
    (find_function_and_template exEsc ("f".toList) ("body".toList) =
        Except.ok (32, 36) ∧
      pySlice exEsc 32 36 = ['a', '\\', '\x60', 'b']) := by
  refine ⟨?_, rfl, rfl⟩
  intro i d c rest
  simp [scanT]

/-- C5 counterexample: the scanner does not track quoting, so an opening
    brace inside a quoted string in the interpolation increments the
    depth and the literal is reported unterminated, not resolved to its
    full span as the claim states. -/
theorem claim_C5_cex :
    find_function_and_template exQuoteOpen ("h".toList) ("v".toList) =
      Except.error LocateError.unterminatedLiteral := rfl

/-- C5 amended: every opening brace inside an interpolation increments
    the nesting depth and every closing brace decrements it regardless
    of quoting; the quoted-closing-brace example still resolves to its
    full span, while a quoted opening brace makes the literal
    unterminated. -/
theorem claim_C5 :
    (∀ (d : Int) (c2 : Char) (rest : List Char),
        scanT true d ('\x7b' :: c2 :: rest) =
          (scanT true (d + 1) (c2 :: rest)).map (fun k => k + 1)) ∧
    (∀ (d : Int) (c2 : Char) (rest : List Char),
        scanT true d ('\x7d' :: c2 :: rest) =
          (if d - 1 = 0 then (scanT false (d - 1) (c2 :: rest)).map (fun k => k + 1)
           else (scanT true (d - 1) (c2 :: rest)).map (fun k => k + 1))) ∧
    (find_function_and_template exQuoteClose ("h".toList) ("v".toList) =
        Except.ok (28, 38) ∧
      pySlice exQuoteClose 28 38 = ("A$\x7b \"\x7d\" \x7dB").toList) ∧
    find_function_and_template exQuoteOpen ("h".toList) ("v".toList) =
      Except.error LocateError.unterminatedLiteral := by
  refine ⟨?_, ?_, ⟨rfl, rfl⟩, rfl⟩
  · intro d c2 rest
    simp [scanT]
  · intro d c2 rest
    simp [scanT]

/-- C9: the scanning loop terminates within length-many iterations: with
    any iteration bound at least the length of the remaining text, the
    bounded loop completes and computes exactly the unbounded scan, since
    the position strictly increases at each iteration (by one, or by two
    on an escape). -/
theorem claim_C9 : ∀ (fuel : Nat) (i : Bool) (d : Int) (s : List Char),
    s.length ≤ fuel → scanFuel fuel i d s = some (scanT i d s)
  | fuel, i, d, [] => by
    intro _
    cases fuel with
    | zero => rfl
    | succ n => rfl
  | 0, i, d, c :: cs => by
    intro h
    simp at h
  | fuel + 1, i, d, [c] => by
    intro _
    simp only [scanFuel, scanT]
    split_ifs <;> rfl
  | fuel + 1, i, d, c :: c2 :: rest => by
    intro h
    have hlen2 : rest.length ≤ fuel := by
      simp only [List.length_cons] at h
      omega
    have hlen1 : (c2 :: rest).length ≤ fuel := by
      simp only [List.length_cons] at h ⊢
      omega
    simp only [scanFuel, scanT]
    split_ifs with h1 h2 h3 h4 h5
    · rw [claim_C9 fuel i d rest hlen2]
      rfl
    · rfl
    · rw [claim_C9 fuel true 1 rest hlen2]
      rfl
    · rw [claim_C9 fuel i (d + 1) (c2 :: rest) hlen1]
      rfl
    · rw [claim_C9 fuel false (d - 1) (c2 :: rest) hlen1]
      rfl
    · rw [claim_C9 fuel i (d - 1) (c2 :: rest) hlen1]
      rfl
    · rw [claim_C9 fuel i d (c2 :: rest) hlen1]
      rfl

/-- C9 witness: the bound suffices on a concrete text. -/
theorem claim_C9_witness :
    scanFuel 5 false 0 ("ab".toList) = some (scanT false 0 ("ab".toList)) :=
  claim_C9 5 false 0 ("ab".toList) (by decide)

/-- C10: the assignment search has no word boundary: searching for
    htmlBody in a function whose only assignment is to xhtmlBody
    nevertheless succeeds (matching inside the longer name) and returns
    that literal region, instead of failing with AssignmentNotFound. -/
theorem claim_C10 :
    find_function_and_template exSuffix ("g".toList) ("htmlBody".toList) =
      Except.ok (36, 40) ∧
    pySlice exSuffix 36 40 = ("TEXT").toList ∧
    ¬find_function_and_template exSuffix ("g".toList) ("htmlBody".toList) =
        Except.error LocateError.assignmentNotFound := by
  refine ⟨rfl, rfl, ?_⟩
  intro h
  rw [show find_function_and_template exSuffix ("g".toList) ("htmlBody".toList) =
      Except.ok (36, 40) from rfl] at h
  exact Except.noConfusion h

/-- C4 counterexample: in function a of the two-function text the
    literal has no closing backtick before the next function boundary
    (which is at position 34, with no backtick from the literal start 28
    up to it), yet locate does not fail with UnterminatedLiteral: it
    succeeds with a region whose end 62 lies beyond the boundary. -/
theorem claim_C4_cex :
    find_function_and_template exCross ("a".toList) ("v".toList) =
      Except.ok (28, 62) ∧
    funcEndOf exCross 14 = 34 ∧
    reSearch (matchFuncHeader ("a".toList)) exCross = some (0, 14) ∧
    (∀ j, j < 34 → 28 ≤ j → ¬getC exCross j = some '\x60') := by
  refine ⟨rfl, rfl, rfl, by decide⟩

/-- C4 amended: the backtick scan is not bounded by the next function
    boundary; once the template start is located, locate fails with
    UnterminatedLiteral exactly when the scan reaches the end of the
    whole text without a terminating backtick, and it does so on a text
    whose literal is never closed. -/
theorem claim_C4 :
    (∀ (code fn v : List Char) (ts : Nat),
        templateStartOf code fn v = Except.ok ts →
        (find_function_and_template code fn v =
            Except.error LocateError.unterminatedLiteral ↔
          scanT false 0 (code.drop ts) = none)) ∧
    find_function_and_template exUnterm ("a".toList) ("v".toList) =
      Except.error LocateError.unterminatedLiteral := by
  constructor
  · intro code fn v ts h
    simp only [find_function_and_template, h]
    cases hs : scanT false 0 (code.drop ts) with
    | none => simp
    | some k => simp
  · rfl

/-- C4 witness: the amended equivalence applied to the unterminated
    concrete text. -/
theorem claim_C4_witness :
    find_function_and_template exUnterm ("a".toList) ("v".toList) =
        Except.error LocateError.unterminatedLiteral ↔
      scanT false 0 (exUnterm.drop 28) = none :=
  claim_C4.1 exUnterm ("a".toList) ("v".toList) 28 rfl

/-- C6: the locator distinguishes exactly three failure reasons and
    returns each as a tagged value rather than aborting: a text with no
    matching function header yields FunctionNotFound, an existing
    function whose bounded body lacks the assignment pattern yields
    AssignmentNotFound, a failure never carries a Region, and the three
    reasons are pairwise distinct.  The embedded locator is a pure
    function of its arguments, so no failure has side effects. -/
theorem claim_C6 :
    (∀ (code fn v : List Char),
        reSearch (matchFuncHeader fn) code = none →
        find_function_and_template code fn v =
          Except.error LocateError.functionNotFound) ∧
    (∀ (code fn v : List Char) (fm : Nat × Nat),
        reSearch (matchFuncHeader fn) code = some fm →
        assignSearch v (funcBodyOf code fm.2) = none →
        find_function_and_template code fn v =
          Except.error LocateError.assignmentNotFound) ∧
    (∀ (code fn v : List Char) (e : LocateError) (p : Nat × Nat),
        find_function_and_template code fn v = Except.error e →
        ¬find_function_and_template code fn v = Except.ok p) ∧
    LocateError.functionNotFound ≠ LocateError.assignmentNotFound ∧
    LocateError.functionNotFound ≠ LocateError.unterminatedLiteral ∧
    LocateError.assignmentNotFound ≠ LocateError.unterminatedLiteral := by
  refine ⟨?_, ?_, ?_, by decide, by decide, by decide⟩
  · intro code fn v h
    simp only [find_function_and_template, templateStartOf, h]
  · intro code fn v fm h1 h2
    simp only [find_function_and_template, templateStartOf, h1, h2]
  · intro code fn v e p h1 h2
    rw [h1] at h2
    exact Except.noConfusion h2

/-- C6 witness: the two failure reasons on concrete texts. -/
theorem claim_C6_witness :
    find_function_and_template exTwoFunc ("zzz".toList) ("v".toList) =
        Except.error LocateError.functionNotFound ∧
    find_function_and_template exNoAssign ("f".toList) ("body".toList) =
        Except.error LocateError.assignmentNotFound :=
  ⟨claim_C6.1 exTwoFunc ("zzz".toList) ("v".toList) rfl,
   claim_C6.2.1 exNoAssign ("f".toList) ("body".toList) (0, 14) rfl rfl⟩

/-- C7: the assignment search is bounded to the located function: every
    successful region starts after the end of the matched header and no
    later than the window end given by the next function declaration (or
    end of text), and on the concrete two-function text locating in b
    returns b's literal, disjoint from a's. -/
theorem claim_C7 :
    (∀ (code fn v : List Char) (st en : Nat),
        find_function_and_template code fn v = Except.ok (st, en) →
        ∃ fm : Nat × Nat, reSearch (matchFuncHeader fn) code = some fm ∧
          fm.2 ≤ st ∧ st ≤ funcEndOf code fm.2) ∧
    (find_function_and_template exTwoFunc ("a".toList) ("v".toList) =
        Except.ok (28, 33) ∧
      pySlice exTwoFunc 28 33 = ("TEXTA").toList ∧
      find_function_and_template exTwoFunc ("b".toList) ("v".toList) =
        Except.ok (66, 71) ∧
      pySlice exTwoFunc 66 71 = ("TEXTB").toList ∧
      funcEndOf exTwoFunc 14 = 37 ∧ 33 ≤ 37 ∧ 37 ≤ 66) := by
  refine ⟨?_, rfl, rfl, rfl, rfl, rfl, by decide, by decide⟩
  intro code fn v st en h
  simp only [find_function_and_template] at h
  cases hts : templateStartOf code fn v with
  | error e => rw [hts] at h; exact absurd h (by simp)
  | ok ts =>
    rw [hts] at h
    dsimp only at h
    cases hs : scanT false 0 (code.drop ts) with
    | none => rw [hs] at h; exact absurd h (by simp)
    | some k =>
      rw [hs] at h
      simp only [Except.ok.injEq, Prod.mk.injEq] at h
      obtain ⟨hst, hen⟩ := h
      simp only [templateStartOf] at hts
      cases hf : reSearch (matchFuncHeader fn) code with
      | none => rw [hf] at hts; exact absurd hts (by simp)
      | some fm =>
        rw [hf] at hts
        dsimp only at hts
        cases ha : assignSearch v (funcBodyOf code fm.2) with
        | none => rw [ha] at hts; exact absurd hts (by simp)
        | some a =>
          rw [ha] at hts
          dsimp only at hts
          simp only [Except.ok.injEq] at hts
          have hbound : a.2 ≤ (funcBodyOf code fm.2).length := by
            unfold assignSearch at ha
            split_ifs at ha
            · exact reSearch_bound matchReturn _ a.1 a.2 (by rw [ha])
            · exact reSearch_bound (matchAssign v) _ a.1 a.2 (by rw [ha])
          have hlen : (funcBodyOf code fm.2).length ≤
              funcEndOf code fm.2 - fm.2 := by
            unfold funcBodyOf
            rw [List.length_take]
            exact Nat.min_le_left _ _
          have hfe : fm.2 ≤ funcEndOf code fm.2 := by
            unfold funcEndOf
            cases hnf : reSearch matchNextFunc (code.drop fm.2) with
            | some p =>
              exact Nat.le_add_right fm.2 p.1
            | none =>
              exact reSearch_bound (matchFuncHeader fn) code fm.1 fm.2 (by rw [hf])
          exact ⟨fm, rfl, by omega, by omega⟩

/-- C7 witness: the bounding applied to function b of the concrete
    two-function text. -/
theorem claim_C7_witness :
    ∃ fm : Nat × Nat,
      reSearch (matchFuncHeader ("b".toList)) exTwoFunc = some fm ∧
      fm.2 ≤ 66 ∧ 66 ≤ funcEndOf exTwoFunc fm.2 :=
  claim_C7.1 exTwoFunc ("b".toList) ("v".toList) 66 71 rfl

/-- C8: on success the region satisfies start <= end <= length of the
    text, the character immediately before start is the opening backtick
    and the character at end is the closing backtick (so also
    1 <= start); failures carry no region by the shape of the result
    type. -/
theorem claim_C8 :
    ∀ (code fn v : List Char) (st en : Nat),
      find_function_and_template code fn v = Except.ok (st, en) →
      1 ≤ st ∧ st ≤ en ∧ en ≤ code.length ∧
      getC code (st - 1) = some '\x60' ∧ getC code en = some '\x60' := by
  intro code fn v st en h
  simp only [find_function_and_template] at h
  cases hts : templateStartOf code fn v with
  | error e => rw [hts] at h; exact absurd h (by simp)
  | ok ts =>
    rw [hts] at h
    dsimp only at h
    cases hs : scanT false 0 (code.drop ts) with
    | none => rw [hs] at h; exact absurd h (by simp)
    | some k =>
      rw [hs] at h
      simp only [Except.ok.injEq, Prod.mk.injEq] at h
      obtain ⟨hst, hen⟩ := h
      have hget := scanT_get (code.drop ts) false 0 k hs
      rw [getC_drop] at hget
      have hlt := getC_lt code (ts + k) '\x60' hget
      simp only [templateStartOf] at hts
      cases hf : reSearch (matchFuncHeader fn) code with
      | none => rw [hf] at hts; exact absurd hts (by simp)
      | some fm =>
        rw [hf] at hts
        dsimp only at hts
        cases ha : assignSearch v (funcBodyOf code fm.2) with
        | none => rw [ha] at hts; exact absurd hts (by simp)
        | some a =>
          rw [ha] at hts
          dsimp only at hts
          simp only [Except.ok.injEq] at hts
          have hends : ∃ p q, funcBodyOf code fm.2 = p ++ '\x60' :: q ∧
              p.length + 1 = a.2 := by
            unfold assignSearch at ha
            split_ifs at ha
            · exact reSearch_ends matchReturn
                (fun s r hr => matchReturn_ends s r hr) _ a.1 a.2 (by rw [ha])
            · exact reSearch_ends (matchAssign v)
                (fun s r hr => matchAssign_ends v s r hr) _ a.1 a.2 (by rw [ha])
          obtain ⟨p, q, hpq, hplen⟩ := hends
          have hbt1 : getC (funcBodyOf code fm.2) p.length = some '\x60' := by
            rw [hpq]
            exact getC_append_cons p '\x60' q
          unfold funcBodyOf at hbt1
          have hbt2 : getC (code.drop fm.2) p.length = some '\x60' :=
            getC_take _ _ _ _ hbt1
          have hbt3 : getC code (fm.2 + p.length) = some '\x60' := by
            rw [← getC_drop]
            exact hbt2
          refine ⟨by omega, by omega, by omega, ?_, ?_⟩
          · have he : st - 1 = fm.2 + p.length := by omega
            rw [he]
            exact hbt3
          · have he : en = ts + k := by omega
            rw [he]
            exact hget

/-- C8 witness: the invariant on the first concrete scenario. -/
theorem claim_C8_witness :
    1 ≤ 32 ∧ 32 ≤ 46 ∧ 46 ≤ ex1.length ∧
    getC ex1 (32 - 1) = some '\x60' ∧ getC ex1 46 = some '\x60' :=
  claim_C8 ex1 ("f".toList) ("body".toList) 32 46 rfl

/-- C1: whenever the locator fixes the template start and the text from
    there consists of scan-neutral content followed by a backtick, the
    returned region slices to exactly that content; and the two concrete
    scenarios: the assignment-style literal with an interpolation slices
    to Hello-dollar-name-bang, and the return-style literal with a braced
    object expression inside the interpolation slices to its full
    content, not truncated at the inner closing brace. -/
theorem claim_C1 :
    (∀ (code fn v TEXT restC : List Char) (ts : Nat),
        templateStartOf code fn v = Except.ok ts →
        code.drop ts = TEXT ++ '\x60' :: restC →
        (∀ c ∈ TEXT, scanPlain c = true) →
        find_function_and_template code fn v = Except.ok (ts, ts + TEXT.length) ∧
        pySlice code ts (ts + TEXT.length) = TEXT) ∧
    (find_function_and_template ex1 ("f".toList) ("body".toList) =
        Except.ok (32, 46) ∧
      pySlice ex1 32 46 = ("Hello $\x7bname\x7d!").toList) ∧
    (find_function_and_template ex2 ("g".toList) ("return".toList) =
        Except.ok (26, 41) ∧
      pySlice ex2 26 41 = ("Hi $\x7b \x7bx:1\x7d.x \x7d").toList) := by
  refine ⟨?_, ⟨rfl, rfl⟩, ⟨rfl, rfl⟩⟩
  intro code fn v TEXT restC ts hts hdrop hplain
  constructor
  · simp only [find_function_and_template, hts]
    rw [hdrop, scanT_plain TEXT 0 restC hplain]
  · unfold pySlice
    rw [hdrop]
    have he : ts + TEXT.length - ts = TEXT.length := by omega
    rw [he]
    exact List.take_left TEXT ('\x60' :: restC)

/-- C1 witness: the general slicing statement applied to a concrete
    text with scan-neutral content. -/
theorem claim_C1_witness :
    find_function_and_template exSuffix ("g".toList) ("htmlBody".toList) =
        Except.ok (36, 36 + ("TEXT".toList).length) ∧
    pySlice exSuffix 36 (36 + ("TEXT".toList).length) = "TEXT".toList :=
  claim_C1.1 exSuffix ("g".toList) ("htmlBody".toList) ("TEXT".toList)
    (";\n\x7d".toList) 36 rfl rfl (by decide)
